import Mathlib

/-!
Shallow embedding of the ingressL4 controller core: the annotation
Extractor (src/core/pkg/ingress/controller/annotations.go) and the
leader-election leaves exercised by src/core/pkg/ingress/status/election_test.go.
Go maps are embedded as functions `String → Option _`, Go `(value, error)`
pairs as explicit `Option` fields, and Go interface values as an explicit
dynamic-value type.
-/

namespace IngressL4

/-! ## Extractor data model (annotations.go) -/

/-- The error category a parser's `Parse` can report: `errors.IsMissingAnnotations`
distinguishes `missing` from every other (hard) error. -/
inductive PError where
  | missing : PError
  | hard : String → PError
deriving DecidableEq, Repr

/-- One registered parser's run against a fixed resource: its registry name and the
`(val, err)` pair its `Parse(ing)` returned (Go allows both to be non-nil). -/
structure ParserRun (V : Type) where
  name : String
  val : Option V
  err : Option PError
deriving DecidableEq, Repr

/-- A value stored in the snapshot map: a parsed value under a parser's name, or the
error object stored under the reserved denial key. -/
inductive SnapEntry (V : Type) where
  | value : V → SnapEntry V
  | errVal : String → SnapEntry V
deriving DecidableEq, Repr

/-- Modelled from the spec: the constant `DeniedKeyName` lives in a controller file
not under src/; the spec calls it "a single well-known map key (e.g. `"Denied"`)". -/
def DeniedKeyName : String := "Denied"

/-- The snapshot map `anns`, embedded as a partial function from keys. -/
def SnapMap (V : Type) : Type := String → Option (SnapEntry V)

/-- Go map assignment `m[k] = e`. -/
def mapSet {V : Type} (m : SnapMap V) (k : String) (e : SnapEntry V) : SnapMap V :=
  fun x => if x = k then some e else m x

/-- The `if val != nil { anns[name] = val }` step of `Extract`. -/
def storeVal {V : Type} (m : SnapMap V) (k : String) : Option V → SnapMap V
  | some v => mapSet m k (SnapEntry.value v)
  | none => m

/-- The loop body of `annotationExtractor.Extract`, iterating one fixed order of the
registry (Go map iteration order is arbitrary; theorems quantify over the list).
Per source: a `missing` error is skipped; the first hard error sets the denial key
and skips the value; a later hard error is only logged and the value (if non-nil)
is still stored; a clean non-nil value is stored under the parser's name. -/
def extractGo {V : Type} : List (ParserRun V) → SnapMap V → SnapMap V
  | [], m => m
  | p :: rest, m =>
    match p.err with
    | some PError.missing => extractGo rest m
    | some (PError.hard e) =>
      if (m DeniedKeyName).isSome then
        extractGo rest (storeVal m p.name p.val)
      else
        extractGo rest (mapSet m DeniedKeyName (SnapEntry.errVal e))
    | none => extractGo rest (storeVal m p.name p.val)

/-- `Extract`: run every registered parser against the resource, starting from the
empty snapshot `make(map[string]interface{}, 0)`. -/
def extract {V : Type} (ps : List (ParserRun V)) : SnapMap V :=
  extractGo ps (fun _ => none)

/-- The first hard (non-missing) error in iteration order, if any. -/
def firstHardErr {V : Type} : List (ParserRun V) → Option String
  | [] => none
  | p :: rest =>
    match p.err with
    | some (PError.hard e) => some e
    | _ => firstHardErr rest

/-! ## Basic map lemmas -/

theorem mapSet_self {V : Type} (m : SnapMap V) (k : String) (e : SnapEntry V) :
    mapSet m k e k = some e := by
  simp [mapSet]

theorem mapSet_ne {V : Type} (m : SnapMap V) (k x : String) (e : SnapEntry V)
    (h : x ≠ k) : mapSet m k e x = m x := by
  simp [mapSet, h]

theorem storeVal_ne {V : Type} (m : SnapMap V) (k x : String) (vl : Option V)
    (h : x ≠ k) : storeVal m k vl x = m x := by
  cases vl with
  | none => rfl
  | some v => simp [storeVal, mapSet, h]

theorem storeVal_self_some {V : Type} (m : SnapMap V) (k : String) (v : V) :
    storeVal m k (some v) k = some (SnapEntry.value v) := by
  simp [storeVal, mapSet]

/-! ## Structural lemmas about the extraction loop -/

theorem extractGo_append {V : Type} (a : List (ParserRun V)) :
    ∀ (b : List (ParserRun V)) (m : SnapMap V),
      extractGo (a ++ b) m = extractGo b (extractGo a m) := by
  induction a with
  | nil => intro b m; rfl
  | cons p rest ih =>
    intro b m
    cases he : p.err with
    | none => simp only [List.cons_append, extractGo, he]; exact ih b _
    | some pe =>
      cases pe with
      | missing => simp only [List.cons_append, extractGo, he]; exact ih b m
      | hard e =>
        by_cases hd : (m DeniedKeyName).isSome <;>
          simp only [List.cons_append, extractGo, he, hd, if_true, if_false,
            Bool.false_eq_true, if_neg] <;> exact ih b _

/-- A stored successful value at a key not written later is preserved: later
parsers write only their own (distinct) names, and the denial key is written only
when it is still empty — impossible once it already holds this value. -/
theorem extractGo_preserve_value {V : Type} (ps : List (ParserRun V)) :
    ∀ (m : SnapMap V) (k : String) (v : V),
      m k = some (SnapEntry.value v) → k ∉ ps.map ParserRun.name →
      extractGo ps m k = some (SnapEntry.value v) := by
  induction ps with
  | nil => intro m k v hm _; exact hm
  | cons p rest ih =>
    intro m k v hm hk
    have hkp : k ≠ p.name := by
      intro h; exact hk (by simp [h])
    have hkrest : k ∉ rest.map ParserRun.name := by
      intro h; exact hk (by simp [h])
    cases he : p.err with
    | none =>
      simp only [extractGo, he]
      exact ih _ k v (by rw [storeVal_ne m p.name k p.val hkp]; exact hm) hkrest
    | some pe =>
      cases pe with
      | missing => simp only [extractGo, he]; exact ih m k v hm hkrest
      | hard e =>
        by_cases hd : (m DeniedKeyName).isSome
        · simp only [extractGo, he, hd, if_true]
          exact ih _ k v (by rw [storeVal_ne m p.name k p.val hkp]; exact hm) hkrest
        · have hkD : k ≠ DeniedKeyName := by
            intro h; rw [h] at hm; rw [hm] at hd; simp at hd
          simp only [extractGo, he, hd, Bool.false_eq_true, if_false]
          exact ih _ k v (by rw [mapSet_ne _ _ _ _ hkD]; exact hm) hkrest

/-- A key (other than the denial key) never written stays absent. -/
theorem extractGo_preserve_none {V : Type} (ps : List (ParserRun V)) :
    ∀ (m : SnapMap V) (k : String),
      m k = none → k ∉ ps.map ParserRun.name → k ≠ DeniedKeyName →
      extractGo ps m k = none := by
  induction ps with
  | nil => intro m k hm _ _; exact hm
  | cons p rest ih =>
    intro m k hm hk hkD
    have hkp : k ≠ p.name := by
      intro h; exact hk (by simp [h])
    have hkrest : k ∉ rest.map ParserRun.name := by
      intro h; exact hk (by simp [h])
    cases he : p.err with
    | none =>
      simp only [extractGo, he]
      exact ih _ k (by rw [storeVal_ne m p.name k p.val hkp]; exact hm) hkrest hkD
    | some pe =>
      cases pe with
      | missing => simp only [extractGo, he]; exact ih m k hm hkrest hkD
      | hard e =>
        by_cases hd : (m DeniedKeyName).isSome
        · simp only [extractGo, he, hd, if_true]
          exact ih _ k (by rw [storeVal_ne m p.name k p.val hkp]; exact hm) hkrest hkD
        · simp only [extractGo, he, hd, Bool.false_eq_true, if_false]
          exact ih _ k (by rw [mapSet_ne _ _ _ _ hkD]; exact hm) hkrest hkD

/-- Once the denial key is occupied, later parsers (none of them named like it)
never change it: the `alreadyDenied` guard only logs. -/
theorem extractGo_preserve_denied {V : Type} (ps : List (ParserRun V)) :
    ∀ (m : SnapMap V),
      (m DeniedKeyName).isSome → DeniedKeyName ∉ ps.map ParserRun.name →
      extractGo ps m DeniedKeyName = m DeniedKeyName := by
  induction ps with
  | nil => intro m _ _; rfl
  | cons p rest ih =>
    intro m hm hk
    have hkp : DeniedKeyName ≠ p.name := by
      intro h; exact hk (by simp [h])
    have hkrest : DeniedKeyName ∉ rest.map ParserRun.name := by
      intro h; exact hk (by simp [h])
    cases he : p.err with
    | none =>
      simp only [extractGo, he]
      rw [ih _ (by rw [storeVal_ne m p.name _ p.val hkp]; exact hm) hkrest]
      exact storeVal_ne m p.name _ p.val hkp
    | some pe =>
      cases pe with
      | missing => simp only [extractGo, he]; exact ih m hm hkrest
      | hard e =>
        have hd : (m DeniedKeyName).isSome := hm
        simp only [extractGo, he, hd, if_true]
        rw [ih _ (by rw [storeVal_ne m p.name _ p.val hkp]; exact hm) hkrest]
        exact storeVal_ne m p.name _ p.val hkp

/-- Starting from an empty denial slot, the denial key ends up holding exactly the
first hard error of the run (in iteration order), or nothing if no hard error
occurred — provided no parser is itself registered under the denial key's name. -/
theorem extractGo_denied_firstHard {V : Type} (ps : List (ParserRun V)) :
    ∀ (m : SnapMap V),
      m DeniedKeyName = none → (∀ p ∈ ps, p.name ≠ DeniedKeyName) →
      extractGo ps m DeniedKeyName = (firstHardErr ps).map SnapEntry.errVal := by
  induction ps with
  | nil => intro m hm _; exact hm
  | cons p rest ih =>
    intro m hm hnm
    have hp : p.name ≠ DeniedKeyName := hnm p (by simp)
    have hrest : ∀ q ∈ rest, q.name ≠ DeniedKeyName := fun q hq => hnm q (by simp [hq])
    cases he : p.err with
    | none =>
      simp only [extractGo, firstHardErr, he]
      exact ih _ (by rw [storeVal_ne m p.name _ p.val (Ne.symm hp)]; exact hm) hrest
    | some pe =>
      cases pe with
      | missing =>
        simp only [extractGo, firstHardErr, he]
        exact ih m hm hrest
      | hard e =>
        have hd : ¬ (m DeniedKeyName).isSome := by rw [hm]; simp
        simp only [extractGo, firstHardErr, he, hd, Bool.false_eq_true, if_false]
        have hnotin : DeniedKeyName ∉ rest.map ParserRun.name := by
          intro h
          rcases List.mem_map.mp h with ⟨q, hq, hqn⟩
          exact hrest q hq hqn
        rw [extractGo_preserve_denied rest _ (by rw [mapSet_self]; rfl) hnotin]
        rw [mapSet_self]
        rfl

/-- No error object is ever stored under a key other than the denial key: a later
hard failure's error is observable only via logs, never via the snapshot. -/
theorem extractGo_no_stray_err {V : Type} (ps : List (ParserRun V)) :
    ∀ (m : SnapMap V) (k : String),
      k ≠ DeniedKeyName → (∀ e, m k ≠ some (SnapEntry.errVal e)) →
      ∀ e, extractGo ps m k ≠ some (SnapEntry.errVal e) := by
  induction ps with
  | nil => intro m k _ hm; exact hm
  | cons p rest ih =>
    intro m k hkD hm
    have hstore : ∀ e, storeVal m p.name p.val k ≠ some (SnapEntry.errVal e) := by
      intro e
      cases hv : p.val with
      | none => simp only [storeVal]; exact hm e
      | some v =>
        by_cases hkp : k = p.name
        · rw [hkp, storeVal_self_some]; simp
        · rw [storeVal_ne m p.name k (some v) hkp]; exact hm e
    cases he : p.err with
    | none =>
      simp only [extractGo, he]
      exact ih _ k hkD hstore
    | some pe =>
      cases pe with
      | missing => simp only [extractGo, he]; exact ih m k hkD hm
      | hard e0 =>
        by_cases hd : (m DeniedKeyName).isSome
        · simp only [extractGo, he, hd, if_true]
          exact ih _ k hkD hstore
        · simp only [extractGo, he, hd, Bool.false_eq_true, if_false]
          exact ih _ k hkD (by intro e; rw [mapSet_ne _ _ _ _ hkD]; exact hm e)

/-! ## Claim theorems: Extractor -/

/-- C1: for every resource and every registry (in any iteration order), the
snapshot returned by `Extract` contains `snapshot[name] = value` for every parser
whose `Parse` returned a non-null value with no error, regardless of whether, or
in what order, other parsers failed with hard errors. -/
theorem extract_keeps_every_success {V : Type} (ps : List (ParserRun V))
    (p : ParserRun V) (v : V)
    (hnd : (ps.map ParserRun.name).Nodup) (hmem : p ∈ ps)
    (hval : p.val = some v) (herr : p.err = none) :
    extract ps p.name = some (SnapEntry.value v) := by
  rcases List.append_of_mem hmem with ⟨s, t, rfl⟩
  have hnd' : (s.map ParserRun.name ++ p.name :: t.map ParserRun.name).Nodup := by
    simpa using hnd
  have hpt : p.name ∉ t.map ParserRun.name :=
    (List.nodup_cons.mp hnd'.of_append_right).1
  unfold extract
  rw [extractGo_append]
  simp only [extractGo, herr]
  refine extractGo_preserve_value t _ p.name v ?_ hpt
  rw [hval]
  exact storeVal_self_some _ _ _

/-- C1 witness: registry with hard failures both before and after the successful
parser; the successful entry is present in the snapshot. -/
theorem extract_keeps_every_success_witness :
    (([⟨"B", none, some (PError.hard "bad")⟩, ⟨"A", some 1, none⟩,
       ⟨"C", none, some (PError.hard "worse")⟩] : List (ParserRun Nat)).map
        ParserRun.name).Nodup
    ∧ (⟨"A", some 1, none⟩ : ParserRun Nat) ∈
        ([⟨"B", none, some (PError.hard "bad")⟩, ⟨"A", some 1, none⟩,
          ⟨"C", none, some (PError.hard "worse")⟩] : List (ParserRun Nat))
    ∧ extract ([⟨"B", none, some (PError.hard "bad")⟩, ⟨"A", some 1, none⟩,
          ⟨"C", none, some (PError.hard "worse")⟩] : List (ParserRun Nat)) "A"
        = some (SnapEntry.value 1) :=
  ⟨by decide, by decide,
   extract_keeps_every_success _ ⟨"A", some 1, none⟩ 1 (by decide) (by decide) rfl rfl⟩

/-- C2: the denial key holds exactly the first hard error in iteration order —
a later hard failure never overwrites it — and no error value ever appears under
any other key, so later errors are observable only via logs, not the snapshot. -/
theorem extract_denied_first_hard_wins {V : Type} (ps : List (ParserRun V))
    (hnm : ∀ p ∈ ps, p.name ≠ DeniedKeyName) :
    extract ps DeniedKeyName = (firstHardErr ps).map SnapEntry.errVal
    ∧ ∀ k, k ≠ DeniedKeyName → ∀ e, extract ps k ≠ some (SnapEntry.errVal e) := by
  constructor
  · exact extractGo_denied_firstHard ps _ rfl hnm
  · intro k hk e
    exact extractGo_no_stray_err ps _ k hk (by intro e'; simp) e

/-- C2 witness: two hard failures; the denial slot holds the first error and the
second error is nowhere in the snapshot. -/
theorem extract_denied_first_hard_wins_witness :
    (∀ p ∈ ([⟨"A", none, some (PError.hard "first")⟩,
             ⟨"B", some 2, some (PError.hard "second")⟩] : List (ParserRun Nat)),
        p.name ≠ DeniedKeyName)
    ∧ extract ([⟨"A", none, some (PError.hard "first")⟩,
        ⟨"B", some 2, some (PError.hard "second")⟩] : List (ParserRun Nat)) DeniedKeyName
        = some (SnapEntry.errVal "first")
    ∧ extract ([⟨"A", none, some (PError.hard "first")⟩,
        ⟨"B", some 2, some (PError.hard "second")⟩] : List (ParserRun Nat)) "B"
        ≠ some (SnapEntry.errVal "second") :=
  ⟨by decide,
   (extract_denied_first_hard_wins _ (by decide)).1,
   (extract_denied_first_hard_wins
      ([⟨"A", none, some (PError.hard "first")⟩,
        ⟨"B", some 2, some (PError.hard "second")⟩] : List (ParserRun Nat))
      (by decide)).2 "B" (by decide) "second"⟩

/-- C5: a parser failing with `MissingAnnotation` is skipped silently — the
snapshot equals the one extracted from the registry without that parser: no entry
under its name, the denial key untouched by it, nothing surfaced to the caller. -/
theorem extract_skips_missing {V : Type} (ps1 ps2 : List (ParserRun V))
    (p : ParserRun V) (h : p.err = some PError.missing) :
    extract (ps1 ++ p :: ps2) = extract (ps1 ++ ps2) := by
  unfold extract
  rw [extractGo_append ps1 (p :: ps2), extractGo_append ps1 ps2]
  simp only [extractGo, h]

/-- C5 witness: an absent-annotation parser between two successful ones changes
nothing in the snapshot. -/
theorem extract_skips_missing_witness :
    (⟨"M", (none : Option Nat), some PError.missing⟩ : ParserRun Nat).err
      = some PError.missing
    ∧ extract ([(⟨"A", some 1, none⟩ : ParserRun Nat)] ++
        ⟨"M", none, some PError.missing⟩ :: [⟨"B", some 2, none⟩])
      = extract ([(⟨"A", some 1, none⟩ : ParserRun Nat)] ++ [⟨"B", some 2, none⟩]) :=
  ⟨rfl, extract_skips_missing _ _ _ rfl⟩

/-- C10: a hard-failing parser's non-nil value is stored in the snapshot exactly
when its failure is not the first one: the first hard-failing parser only sets the
denial key and its own value is dropped, while every subsequent hard-failing
parser's non-nil value is stored under its name. -/
theorem extract_hard_value_depends_on_first {V : Type}
    (ps1 ps2 : List (ParserRun V)) (p : ParserRun V) (e : String) (v : V)
    (hnd : ((ps1 ++ p :: ps2).map ParserRun.name).Nodup)
    (hnm : ∀ q ∈ ps1 ++ p :: ps2, q.name ≠ DeniedKeyName)
    (he : p.err = some (PError.hard e)) (hv : p.val = some v) :
    (firstHardErr ps1 = none → extract (ps1 ++ p :: ps2) p.name = none)
    ∧ (∀ e0, firstHardErr ps1 = some e0 →
        extract (ps1 ++ p :: ps2) p.name = some (SnapEntry.value v)) := by
  have hpD : p.name ≠ DeniedKeyName := hnm p (by simp)
  have hnm1 : ∀ q ∈ ps1, q.name ≠ DeniedKeyName := fun q hq => hnm q (by simp [hq])
  have hnd' : (ps1.map ParserRun.name ++ p.name :: ps2.map ParserRun.name).Nodup := by
    simpa using hnd
  have hp2 : p.name ∉ ps2.map ParserRun.name :=
    (List.nodup_cons.mp hnd'.of_append_right).1
  have hp1 : p.name ∉ ps1.map ParserRun.name := by
    intro hmem
    exact (List.nodup_append.mp hnd').2.2 hmem (by simp)
  constructor
  · intro hfh
    unfold extract
    rw [extractGo_append]
    have hm1name : extractGo ps1 (fun _ => none) p.name = none :=
      extractGo_preserve_none ps1 _ p.name rfl hp1 hpD
    have hm1D : extractGo ps1 (fun _ => none) DeniedKeyName = none := by
      rw [extractGo_denied_firstHard ps1 _ rfl hnm1, hfh]; rfl
    have hd : (extractGo ps1 (fun _ => none) DeniedKeyName).isSome = false := by
      rw [hm1D]; rfl
    simp only [extractGo, he, hd, Bool.false_eq_true, if_false]
    exact extractGo_preserve_none ps2 _ p.name
      (by rw [mapSet_ne _ _ _ _ hpD]; exact hm1name) hp2 hpD
  · intro e0 hfh
    unfold extract
    rw [extractGo_append]
    have hm1D : extractGo ps1 (fun _ => none) DeniedKeyName
        = some (SnapEntry.errVal e0) := by
      rw [extractGo_denied_firstHard ps1 _ rfl hnm1, hfh]; rfl
    have hd : (extractGo ps1 (fun _ => none) DeniedKeyName).isSome = true := by
      rw [hm1D]; rfl
    simp only [extractGo, he, hd, if_true]
    exact extractGo_preserve_value ps2 _ p.name v
      (by rw [hv]; exact storeVal_self_some _ _ _) hp2

/-- C10 witness: when the hard failure is first, the value is dropped; behind an
earlier hard failure, the same parser's value is stored. -/
theorem extract_hard_value_depends_on_first_witness :
    (([⟨"S", some 7, none⟩, ⟨"H", some 9, some (PError.hard "e")⟩]
        : List (ParserRun Nat)).map ParserRun.name).Nodup
    ∧ firstHardErr ([⟨"S", (some 7 : Option Nat), none⟩]) = none
    ∧ extract ([(⟨"S", some 7, none⟩ : ParserRun Nat)] ++
        ⟨"H", some 9, some (PError.hard "e")⟩ :: []) "H" = none
    ∧ firstHardErr ([⟨"F", (none : Option Nat), some (PError.hard "e0")⟩]) = some "e0"
    ∧ extract ([(⟨"F", none, some (PError.hard "e0")⟩ : ParserRun Nat)] ++
        ⟨"H", some 9, some (PError.hard "e")⟩ :: []) "H"
        = some (SnapEntry.value 9) :=
  ⟨by decide, rfl,
   (extract_hard_value_depends_on_first [⟨"S", some 7, none⟩] []
      ⟨"H", some 9, some (PError.hard "e")⟩ "e" 9
      (by decide) (by decide) rfl rfl).1 rfl,
   rfl,
   (extract_hard_value_depends_on_first [⟨"F", none, some (PError.hard "e0")⟩] []
      ⟨"H", some 9, some (PError.hard "e")⟩ "e" 9
      (by decide) (by decide) rfl rfl).2 "e0" rfl⟩

/-! ## Typed convenience accessors (annotations.go, `SecureUpstream` etc.) -/

/-- A Go `interface{}` value as held in a parser's first return slot: a concrete
value of the statically expected type, or `nil`. -/
inductive GoVal (V : Type) where
  | mk : V → GoVal V
  | nil : GoVal V
deriving DecidableEq, Repr

/-- The panic raised by a Go type assertion `val.(T)` when `val` holds no value of
type `T`. -/
inductive GoPanic where
  | assertFailed : GoPanic
deriving DecidableEq, Repr

/-- The Go type assertion `val.(T)` against the statically expected type. -/
def typeAssert {V : Type} : GoVal V → Except GoPanic V
  | GoVal.mk v => Except.ok v
  | GoVal.nil => Except.error GoPanic.assertFailed

/-- The carried value, or the type's zero value for `nil`. -/
def GoVal.get {V : Type} [Inhabited V] : GoVal V → V
  | GoVal.mk v => v
  | GoVal.nil => default

/-- What one typed parser's `Parse(ing)` returned on the fixed resource. -/
structure ParseRet (V : Type) where
  val : GoVal V
  err : Option String
deriving DecidableEq, Repr

/-- Modelled from the spec: the typed-parser contract of §4.5 — the four typed
parsers (packages secureupstream, healthcheck, sslpassthrough, sessionaffinity are
not under src/) always return a value of their declared type, and the zero/default
value of that type when the parse fails. -/
def TypedContract {V : Type} [Inhabited V] (p : ParseRet V) : Prop :=
  (∃ v, p.val = GoVal.mk v) ∧ (p.err.isSome → p.val = GoVal.mk default)

/-- Modelled from the spec: the health-check policy type (package not under src/). -/
structure Upstream where
  upstreamMaxFails : Nat
  upstreamFailTimeout : Nat
deriving DecidableEq, Repr

instance : Inhabited Upstream := ⟨⟨0, 0⟩⟩

/-- Modelled from the spec: the session-affinity policy type (package not under src/). -/
structure AffinityConfig where
  affinityType : String
  cookieName : String
deriving DecidableEq, Repr

instance : Inhabited AffinityConfig := ⟨⟨"", ""⟩⟩

/-- The four fixed registry entries the typed accessors read (names
"SecureUpstream", "HealthCheck", "SSLPassthrough", "SessionAffinity"), each paired
with what its parser returned on the given resource. -/
structure TypedRegistryRun where
  secureUpstreamRun : ParseRet Bool
  healthCheckRun : ParseRet Upstream
  sslPassthroughRun : ParseRet Bool
  sessionAffinityRun : ParseRet AffinityConfig
deriving DecidableEq, Repr

/-- `annotationExtractor.SecureUpstream`: `val, _ := parse; return val.(bool)`. -/
def SecureUpstream (e : TypedRegistryRun) : Except GoPanic Bool :=
  typeAssert e.secureUpstreamRun.val

/-- `annotationExtractor.HealthCheck`. -/
def HealthCheck (e : TypedRegistryRun) : Except GoPanic Upstream :=
  typeAssert e.healthCheckRun.val

/-- `annotationExtractor.SSLPassthrough`. -/
def SSLPassthrough (e : TypedRegistryRun) : Except GoPanic Bool :=
  typeAssert e.sslPassthroughRun.val

/-- `annotationExtractor.SessionAffinity`. -/
def SessionAffinity (e : TypedRegistryRun) : Except GoPanic AffinityConfig :=
  typeAssert e.sessionAffinityRun.val

theorem typeAssert_of_contract {V : Type} [Inhabited V] (p : ParseRet V)
    (h : TypedContract p) :
    typeAssert p.val = Except.ok (GoVal.get p.val)
    ∧ (p.err.isSome → typeAssert p.val = Except.ok default) := by
  rcases h with ⟨⟨v, hv⟩, hz⟩
  constructor
  · rw [hv]; rfl
  · intro hs; rw [hz hs]; rfl

/-- C4: each typed convenience accessor reads only its one named parser's result,
discards the error, and — under the typed-parser contract — always returns a value
of its declared type (never a type-assertion fault); when the parser failed it
silently returns the parser's zero/default value. -/
theorem typed_accessors_total (e : TypedRegistryRun)
    (h1 : TypedContract e.secureUpstreamRun)
    (h2 : TypedContract e.healthCheckRun)
    (h3 : TypedContract e.sslPassthroughRun)
    (h4 : TypedContract e.sessionAffinityRun) :
    (SecureUpstream e = Except.ok (GoVal.get e.secureUpstreamRun.val)
      ∧ (e.secureUpstreamRun.err.isSome → SecureUpstream e = Except.ok false))
    ∧ (HealthCheck e = Except.ok (GoVal.get e.healthCheckRun.val)
      ∧ (e.healthCheckRun.err.isSome → HealthCheck e = Except.ok default))
    ∧ (SSLPassthrough e = Except.ok (GoVal.get e.sslPassthroughRun.val)
      ∧ (e.sslPassthroughRun.err.isSome → SSLPassthrough e = Except.ok false))
    ∧ (SessionAffinity e = Except.ok (GoVal.get e.sessionAffinityRun.val)
      ∧ (e.sessionAffinityRun.err.isSome → SessionAffinity e = Except.ok default)) :=
  ⟨typeAssert_of_contract _ h1, typeAssert_of_contract _ h2,
   typeAssert_of_contract _ h3, typeAssert_of_contract _ h4⟩

/-- A concrete registry run: the secure-upstream and session-affinity parsers fail
(returning their zero values per the contract), the other two succeed. -/
def typedRunW : TypedRegistryRun :=
  ⟨⟨GoVal.mk false, some "bad"⟩, ⟨GoVal.mk ⟨3, 4⟩, none⟩,
   ⟨GoVal.mk true, none⟩, ⟨GoVal.mk ⟨"", ""⟩, some "worse"⟩⟩

/-- C4 witness: on `typedRunW` every accessor returns its parser's value without
faulting, the failing ones returning the zero/default value. -/
theorem typed_accessors_total_witness :
    (TypedContract typedRunW.secureUpstreamRun
      ∧ TypedContract typedRunW.healthCheckRun
      ∧ TypedContract typedRunW.sslPassthroughRun
      ∧ TypedContract typedRunW.sessionAffinityRun)
    ∧ ((SecureUpstream typedRunW = Except.ok (GoVal.get typedRunW.secureUpstreamRun.val)
      ∧ (typedRunW.secureUpstreamRun.err.isSome → SecureUpstream typedRunW = Except.ok false))
    ∧ (HealthCheck typedRunW = Except.ok (GoVal.get typedRunW.healthCheckRun.val)
      ∧ (typedRunW.healthCheckRun.err.isSome → HealthCheck typedRunW = Except.ok default))
    ∧ (SSLPassthrough typedRunW = Except.ok (GoVal.get typedRunW.sslPassthroughRun.val)
      ∧ (typedRunW.sslPassthroughRun.err.isSome → SSLPassthrough typedRunW = Except.ok false))
    ∧ (SessionAffinity typedRunW = Except.ok (GoVal.get typedRunW.sessionAffinityRun.val)
      ∧ (typedRunW.sessionAffinityRun.err.isSome → SessionAffinity typedRunW = Except.ok default))) := by
  have hc1 : TypedContract typedRunW.secureUpstreamRun := ⟨⟨false, rfl⟩, fun _ => rfl⟩
  have hc2 : TypedContract typedRunW.healthCheckRun :=
    ⟨⟨⟨3, 4⟩, rfl⟩, fun h => absurd h (by decide)⟩
  have hc3 : TypedContract typedRunW.sslPassthroughRun :=
    ⟨⟨true, rfl⟩, fun h => absurd h (by decide)⟩
  have hc4 : TypedContract typedRunW.sessionAffinityRun := ⟨⟨⟨"", ""⟩, rfl⟩, fun _ => rfl⟩
  exact ⟨⟨hc1, hc2, hc3, hc4⟩, typed_accessors_total typedRunW hc1 hc2 hc3 hc4⟩

/-! ## Certificate auth secret accessor (annotations.go, `CertificateAuthSecret`) -/

/-- An ingress resource as the certificate accessor sees it: object name,
namespace and the string-keyed annotations map. -/
structure Ingress where
  name : String
  ns : String
  annotations : String → Option String

/-- Modelled from the spec: `parser.GetStringAnnotation` (the annotations/parser
package is not under src/) reads one raw annotation value directly, with the empty
string as the absence sentinel. -/
def getStringAnn (key : String) (ing : Ingress) : String :=
  (ing.annotations key).getD ""

def authTLSSecretKey : String := "ingress.kubernetes.io/auth-tls-secret"

structure Secret where
  secretName : String
deriving DecidableEq, Repr

/-- `annotationExtractor.CertificateAuthSecret`: read the auth-tls-secret
annotation; on the empty sentinel return `(nil, fmt.Errorf("ingress rule %v/%v
does not contain the auth-tls-secret annotation", ...))`; otherwise delegate to
the injected secret resolver's `GetSecret`. -/
def CertificateAuthSecret (getSecret : String → Except String Secret)
    (ing : Ingress) : Except String Secret :=
  let val := getStringAnn authTLSSecretKey ing
  if val = "" then
    Except.error ("ingress rule " ++ ing.ns ++ "/" ++ ing.name ++
      " does not contain the auth-tls-secret annotation")
  else
    getSecret val

/-- A secret resolver that always succeeds. -/
def gsAlwaysOk : String → Except String Secret := fun n => Except.ok ⟨n⟩

/-- A resource carrying no annotations at all. -/
def ingNoAuthTLS : Ingress := ⟨"foo", "bar", fun _ => none⟩

/-- C3 counterexample: on a resource without the auth-tls-secret annotation the
accessor returns a hard error (naming the resource as lacking the annotation),
not a non-error "no secret requested" result. -/
theorem certificateAuthSecret_absent_is_error :
    CertificateAuthSecret gsAlwaysOk ingNoAuthTLS
      = Except.error
          "ingress rule bar/foo does not contain the auth-tls-secret annotation" :=
  rfl

/-- C3 amended: absence of the auth-tls-secret annotation (empty-string sentinel)
makes `CertificateAuthSecret` return no secret together with an error naming the
resource as lacking the annotation; when the annotation is present the accessor
returns the injected `GetSecret` result unchanged, so a failed fetch propagates
as a hard error. -/
theorem certificateAuthSecret_cases (getSecret : String → Except String Secret)
    (ing : Ingress) :
    (getStringAnn authTLSSecretKey ing = "" →
      CertificateAuthSecret getSecret ing
        = Except.error ("ingress rule " ++ ing.ns ++ "/" ++ ing.name ++
            " does not contain the auth-tls-secret annotation"))
    ∧ (∀ v, getStringAnn authTLSSecretKey ing = v → v ≠ "" →
        CertificateAuthSecret getSecret ing = getSecret v) := by
  constructor
  · intro h
    simp only [CertificateAuthSecret, h, if_true]
  · intro v hv hne
    simp only [CertificateAuthSecret, hv, hne, if_false]

/-- A resource whose auth-tls-secret annotation names a secret. -/
def ingWithAuthTLS : Ingress :=
  ⟨"foo", "bar", fun k => if k = authTLSSecretKey then some "tls-secret" else none⟩

/-- C3 amended witness: both branches exercised on concrete resources. -/
theorem certificateAuthSecret_cases_witness :
    getStringAnn authTLSSecretKey ingNoAuthTLS = ""
    ∧ CertificateAuthSecret gsAlwaysOk ingNoAuthTLS
        = Except.error ("ingress rule " ++ "bar" ++ "/" ++ "foo" ++
            " does not contain the auth-tls-secret annotation")
    ∧ getStringAnn authTLSSecretKey ingWithAuthTLS = "tls-secret"
    ∧ ("tls-secret" : String) ≠ ""
    ∧ CertificateAuthSecret gsAlwaysOk ingWithAuthTLS = gsAlwaysOk "tls-secret" :=
  ⟨rfl,
   (certificateAuthSecret_cases gsAlwaysOk ingNoAuthTLS).1 rfl,
   rfl, by decide,
   (certificateAuthSecret_cases gsAlwaysOk ingWithAuthTLS).2 "tls-secret" rfl (by decide)⟩

/-! ## Leader election: getCurrentLeader. The election source file is not under
src/ — only its tests (src/core/pkg/ingress/status/election_test.go) are — so the
function is modelled from the spec (§4.2) and checked against the tests' shapes. -/

/-- The serialized leadership claim (the LockRecord of the spec). -/
structure LeaderElectionRecord where
  holderIdentity : String
  leaseDurationSeconds : Nat
  acquireTime : Nat
  renewTime : Nat
  leaderTransitions : Nat
deriving DecidableEq, Repr

/-- Modelled from the spec: the well-known annotation key under which the lock
record is stored on the shared Endpoints resource
(`resourcelock.LeaderElectionRecordAnnotationKey`). -/
def leaderElectionRecordKey : String := "control-plane.alpha.kubernetes.io/leader"

/-- The shared cluster resource carrying the lock annotation. -/
structure Endpoints where
  name : String
  ns : String
  annotations : String → Option String

/-- Modelled from the spec: `getCurrentLeader(name, namespace, store)` (§4.2).
Reads the resource via the store; if the lock annotation is absent the result is
`("", resource, nil)`; if present but not parseable as a LockRecord it is
`("", nil, ParseError)`; if well-formed it is the record's holder identity with
the resource and no error. `decode` stands for `json.Unmarshal` into a
`LeaderElectionRecord`. -/
def getCurrentLeader (decode : String → Option LeaderElectionRecord)
    (store : String → String → Except String Endpoints)
    (electionId nspace : String) :
    String × Option Endpoints × Option String :=
  match store electionId nspace with
  | Except.error e => ("", none, some e)
  | Except.ok ep =>
    match ep.annotations leaderElectionRecordKey with
    | none => ("", some ep, none)
    | some raw =>
      match decode raw with
      | none => ("", none, some ("lock record parse error: " ++ raw))
      | some r => (r.holderIdentity, some ep, none)

/-- C6: a resource that exists in the store but carries no lock annotation yields
the empty identity, the (non-nil) resource itself, and no error. -/
theorem getCurrentLeader_no_lock (decode : String → Option LeaderElectionRecord)
    (store : String → String → Except String Endpoints)
    (electionId nspace : String) (ep : Endpoints)
    (hstore : store electionId nspace = Except.ok ep)
    (hann : ep.annotations leaderElectionRecordKey = none) :
    getCurrentLeader decode store electionId nspace = ("", some ep, none) := by
  simp only [getCurrentLeader, hstore, hann]

/-- A decoder that accepts nothing. -/
def decodeNone : String → Option LeaderElectionRecord := fun _ => none

/-- The test resource of `TestGetCurrentLeaderLeaderNotExist`: no annotations. -/
def epNoLock : Endpoints := ⟨"ingress-controller-test", "kube-system", fun _ => none⟩

def storeNoLock : String → String → Except String Endpoints :=
  fun _ _ => Except.ok epNoLock

/-- C6 witness. -/
theorem getCurrentLeader_no_lock_witness :
    storeNoLock "ingress-controller-test" "kube-system" = Except.ok epNoLock
    ∧ epNoLock.annotations leaderElectionRecordKey = none
    ∧ getCurrentLeader decodeNone storeNoLock "ingress-controller-test" "kube-system"
        = ("", some epNoLock, none) :=
  ⟨rfl, rfl,
   getCurrentLeader_no_lock decodeNone storeNoLock _ _ epNoLock rfl rfl⟩

/-- C7: a lock annotation that is present but not parseable as a LockRecord yields
an error together with the empty identity and no usable resource, distinguishing
corrupt state from the no-leader-yet case. -/
theorem getCurrentLeader_malformed (decode : String → Option LeaderElectionRecord)
    (store : String → String → Except String Endpoints)
    (electionId nspace : String) (ep : Endpoints) (raw : String)
    (hstore : store electionId nspace = Except.ok ep)
    (hann : ep.annotations leaderElectionRecordKey = some raw)
    (hdec : decode raw = none) :
    getCurrentLeader decode store electionId nspace
      = ("", none, some ("lock record parse error: " ++ raw)) := by
  simp only [getCurrentLeader, hstore, hann, hdec]

/-- The test resource of `TestGetCurrentLeaderAnnotationError`: a garbage payload
under the lock key. -/
def epBadLock : Endpoints :=
  ⟨"ingress-controller-test", "kube-system",
   fun k => if k = leaderElectionRecordKey then some "not-a-json-record" else none⟩

def storeBadLock : String → String → Except String Endpoints :=
  fun _ _ => Except.ok epBadLock

/-- C7 witness. -/
theorem getCurrentLeader_malformed_witness :
    storeBadLock "ingress-controller-test" "kube-system" = Except.ok epBadLock
    ∧ epBadLock.annotations leaderElectionRecordKey = some "not-a-json-record"
    ∧ decodeNone "not-a-json-record" = none
    ∧ getCurrentLeader decodeNone storeBadLock "ingress-controller-test" "kube-system"
        = ("", none, some ("lock record parse error: " ++ "not-a-json-record")) :=
  ⟨rfl, rfl, rfl,
   getCurrentLeader_malformed decodeNone storeBadLock _ _ epBadLock
     "not-a-json-record" rfl rfl rfl⟩

/-- C8: a well-formed lock annotation yields exactly the record's
`HolderIdentity` field value, the resource, and no error. -/
theorem getCurrentLeader_wellformed (decode : String → Option LeaderElectionRecord)
    (store : String → String → Except String Endpoints)
    (electionId nspace : String) (ep : Endpoints) (raw : String)
    (r : LeaderElectionRecord)
    (hstore : store electionId nspace = Except.ok ep)
    (hann : ep.annotations leaderElectionRecordKey = some raw)
    (hdec : decode raw = some r) :
    getCurrentLeader decode store electionId nspace
      = (r.holderIdentity, some ep, none) := by
  simp only [getCurrentLeader, hstore, hann, hdec]

/-- The spec's scenario record: `{HolderIdentity:"A", LeaseDurationSeconds:30,
RenewTime:<now>}` (timestamps as abstract ticks). -/
def recA : LeaderElectionRecord := ⟨"A", 30, 100, 100, 0⟩

def epLockA : Endpoints :=
  ⟨"ingress-controller-test", "kube-system",
   fun k => if k = leaderElectionRecordKey then some "recA-payload" else none⟩

def storeLockA : String → String → Except String Endpoints :=
  fun _ _ => Except.ok epLockA

def decodeA : String → Option LeaderElectionRecord :=
  fun s => if s = "recA-payload" then some recA else none

/-- C8 witness: the scenario returns `("A", <resource>, nil)`. -/
theorem getCurrentLeader_wellformed_witness :
    storeLockA "ingress-controller-test" "kube-system" = Except.ok epLockA
    ∧ epLockA.annotations leaderElectionRecordKey = some "recA-payload"
    ∧ decodeA "recA-payload" = some recA
    ∧ recA.holderIdentity = "A"
    ∧ getCurrentLeader decodeA storeLockA "ingress-controller-test" "kube-system"
        = ("A", some epLockA, none) :=
  ⟨rfl, rfl, rfl, rfl,
   getCurrentLeader_wellformed decodeA storeLockA _ _ epLockA "recA-payload" recA
     rfl rfl rfl⟩

/-! ## Election race over the optimistic lock store (modelled from the spec,
§4.1 and §4.3: no election-loop or store code is under src/). -/

inductive StoreErr where
  | conflict : StoreErr
deriving DecidableEq, Repr

/-- The versioned single-key lock store state. -/
structure LockStoreState where
  record : Option LeaderElectionRecord
  version : Nat
deriving DecidableEq, Repr

/-- Modelled from the spec: `LockStore.Update` (§4.1) — the conditional write
succeeds only when the caller's expected resource version is still current,
storing the record and bumping the version; otherwise it fails with `Conflict`.
This optimistic check is the sole concurrency-control mechanism. -/
def lockUpdate (s : LockStoreState) (r : LeaderElectionRecord)
    (expected : Nat) : Except StoreErr LockStoreState :=
  if expected = s.version then Except.ok ⟨some r, s.version + 1⟩
  else Except.error StoreErr.conflict

/-- The holder identity a replica observes when reading the store. -/
def readHolder (s : LockStoreState) : String :=
  match s.record with
  | some r => r.holderIdentity
  | none => ""

/-- C9: two replicas race to acquire the lock in the same tick, both having
observed the same store version; whichever conditional write the store serializes
first succeeds, the other receives the Conflict signal, and the loser's next read
observes the winner's identity — so exactly one of the two writes wins,
whichever order the store serializes them in. -/
theorem election_race_single_winner (s0 : LockStoreState)
    (rFirst rSecond : LeaderElectionRecord) :
    ∃ s1, lockUpdate s0 rFirst s0.version = Except.ok s1
      ∧ lockUpdate s1 rSecond s0.version = Except.error StoreErr.conflict
      ∧ readHolder s1 = rFirst.holderIdentity := by
  refine ⟨⟨some rFirst, s0.version + 1⟩, ?_, ?_, rfl⟩
  · simp [lockUpdate]
  · simp only [lockUpdate]
    rw [if_neg (by omega)]
